import Mathlib

/-!
Verification development for the metadata enrichment of the historical land
registry of Basel (file enrichMetadata.py of the repository).  The Python
functions get_new_house_number, split_old_house_number and
correct_old_house_number are shallowly embedded as executable Lean functions
over lists of characters.  Python exceptions are modelled with Except.

Conventions of the embedding:
* the regex class of whitespace characters is modelled by the six ASCII
  whitespace characters, the classes of letters and digits by their ASCII
  ranges (the Python string predicates isalpha and isnumeric are likewise
  restricted to ASCII);
* the regex anchor for the end of the input is modelled as the very end of
  the string, and the regex wildcard as any character other than a newline;
* Python None and pandas NaN values are modelled with Option;
* Python lists indexed out of range are modelled as errors, as is the use
  of a dynamically built, non-literal pattern in a regex search.
-/

/-- ASCII digit, the regex class of digits. -/
def isDigitC (c : Char) : Bool := '0' ≤ c && c ≤ '9'

/-- ASCII whitespace, modelling the regex class of whitespace characters. -/
def isWsC (c : Char) : Bool :=
  c == ' ' || c == '\t' || c == '\n' || c == '\r' || c == '\x0b' || c == '\x0c'

/-- ASCII letter, the regex class of lowercase and uppercase letters. -/
def isAlphaC (c : Char) : Bool := ('a' ≤ c && c ≤ 'z') || ('A' ≤ c && c ≤ 'Z')

/-- ASCII lowercase letter, the regex class of lowercase letters. -/
def isLowerC (c : Char) : Bool := 'a' ≤ c && c ≤ 'z'

/-- The regex wildcard: any character other than a newline. -/
def notNl (c : Char) : Bool := !(c == '\n')

/-- Test whether pat occurs as a contiguous sublist of l, modelling an
unanchored regex search for a literal pattern. -/
def containsSub (l pat : List Char) : Bool :=
  if pat.isPrefixOf l then true
  else
    match l with
    | [] => false
    | _ :: cs => containsSub cs pat

/-- Index of the first occurrence of the literal pattern pat in l, modelling
the start position of an unanchored regex search. -/
def firstIndexAt (l pat : List Char) : Option Nat :=
  if pat.isPrefixOf l then some 0
  else
    match l with
    | [] => none
    | _ :: cs => (firstIndexAt cs pat).map (· + 1)

/-- Nondeterministic matcher: a regex fragment maps an input to the list of
possible remainders after the fragment has consumed a prefix.  The order of
the remainders follows the backtracking order of the Python engine (greedy
first, alternatives in written order). -/
abbrev MRests := List Char → List (List Char)

/-- Consume one character satisfying p. -/
def chM (p : Char → Bool) : MRests := fun l =>
  match l with
  | c :: cs => if p c then [cs] else []
  | [] => []

/-- Sequential composition of two regex fragments. -/
def seqM (a b : MRests) : MRests := fun l => (a l).flatMap b

/-- Greedy option: the fragment is tried first, the empty match second. -/
def optM (a : MRests) : MRests := fun l => a l ++ [l]

/-- Consume the literal character list pat. -/
def litM (pat : List Char) : MRests := fun l =>
  if pat.isPrefixOf l then [l.drop pat.length] else []

/-- Consume one character per character class in the given list. -/
def clsSeqM : List (Char → Bool) → MRests
  | [] => fun l => [l]
  | p :: ps => fun l =>
    match l with
    | c :: cs => if p c then clsSeqM ps cs else []
    | [] => []

/-- Greedy Kleene star with fuel; the fuel bounds the number of iterations
and is always instantiated with more than the input length, which is enough
for fragments that consume at least one character per iteration. -/
def starM : Nat → MRests → MRests
  | 0, _ => fun l => [l]
  | fuel + 1, a => fun l => ((a l).flatMap (starM fuel a)) ++ [l]

/-- One or more repetitions of a fragment, greedy, with fuel. -/
def plusM (fuel : Nat) (a : MRests) : MRests := seqM a (starM fuel a)

/-- Remainders after consuming one or more leading digits, longest
consumption first (greedy order). -/
def digitsRests : List Char → List (List Char)
  | [] => []
  | c :: cs => if isDigitC c then digitsRests cs ++ [cs] else []

/-- The regex fragment of one or more digits. -/
def digitsPM : MRests := digitsRests

/-- The regex fragment of zero or more digits, greedy. -/
def digitsStarM : MRests := fun l => digitsRests l ++ [l]

/-- Character equality as a class test. -/
def chEq (a : Char) : Char → Bool := fun c => c == a

/-- Character classes of a literal string. -/
def litCls (s : String) : List (Char → Bool) := s.toList.map chEq

/-- Pattern of the part-of marker written with two abbreviation points; the
points are unescaped in the source regex and therefore match any
character. -/
def patThVdot : List (Char → Bool) := [chEq 'T', chEq 'h', notNl, chEq ' ', chEq 'v', notNl]

/-- Pattern of the part-of marker with one trailing abbreviation point. -/
def patTheilVdot : List (Char → Bool) := litCls "Theil v" ++ [notNl]

/-- Pattern of the part-of marker with a leading abbreviation point. -/
def patThVon : List (Char → Bool) := [chEq 'T', chEq 'h', notNl, chEq ' ', chEq 'v', chEq 'o', chEq 'n']

/-- Alternation of the four part-of marker patterns, in the order of the
source regex. -/
def thPrefM : MRests := fun l =>
  clsSeqM patThVdot l ++ clsSeqM (litCls "Theil von") l ++
    clsSeqM patTheilVdot l ++ clsSeqM patThVon l

/-- The number token fragment of the classification rules: one or more
digits, an optional whitespace character, an optional letter. -/
def tokM : MRests := seqM digitsPM (seqM (optM (chM isWsC)) (optM (chM isAlphaC)))

/-- Test whether the given character classes match at the head of l. -/
def clsAt : List (Char → Bool) → List Char → Bool
  | [], _ => true
  | p :: ps, c :: cs => p c && clsAt ps cs
  | _ :: _, [] => false

/-- Remainders after consuming an optional character satisfying p. -/
def optRests (p : Char → Bool) (l : List Char) : List (List Char) :=
  match l with
  | c :: cs => if p c then [cs, c :: cs] else [c :: cs]
  | [] => [[]]

/-- Remainders after consuming one number token (digits, optional
whitespace, optional letter). -/
def tokenRests (l : List Char) : List (List Char) :=
  ((digitsRests l).flatMap (optRests isWsC)).flatMap (optRests isAlphaC)

/-- Remainders after consuming one of the four separators of the first
classification rule: comma-space, space-slash-space, space-plus-space or
the abbreviated German conjunction. -/
def sepRests1 (l : List Char) : List (List Char) :=
  (if clsAt [chEq ',', isWsC] l then [l.drop 2] else []) ++
    (if clsAt [isWsC, chEq '/', isWsC] l then [l.drop 3] else []) ++
    (if clsAt [isWsC, chEq '+', isWsC] l then [l.drop 3] else []) ++
    (if clsAt [isWsC, chEq 'u', chEq '.', isWsC] l then [l.drop 4] else [])

/-- Matcher of the first classification rule: one or more number tokens,
each followed by an optional separator, spanning the whole input. -/
def r1Go : Nat → List Char → Bool
  | 0, _ => false
  | fuel + 1, l =>
    (tokenRests l).any fun r =>
      (r :: sepRests1 r).any fun r2 => r2.isEmpty || r1Go fuel r2

/-- The first classification rule: a plain list of number tokens. -/
def matchRule1 (l : List Char) : Bool := r1Go (l.length + 1) l

/-- Separator alternation of the second classification rule. -/
def sep2M : MRests := fun l =>
  clsSeqM [chEq ',', isWsC] l ++ clsSeqM [isWsC, chEq '/', isWsC] l

/-- The second classification rule: a list of number tokens followed by the
literal district marker suffix. -/
def matchRule2 (l : List Char) : Bool :=
  ((plusM (l.length + 1) (seqM tokM (optM sep2M))) l).any
    (fun r =>
      match r with
      | w :: rest => isWsC w && rest == ['(', 'B', 'a', 'n', 'n', ')']
      | [] => false)

/-- The third classification rule: a number token followed by at least one
further character, with no newline in the remainder. -/
def matchRule3 (l : List Char) : Bool :=
  (tokM l).any (fun r => !r.isEmpty && r.all notNl)

/-- One group of the fourth classification rule: a number token followed by
zero or more comma-space separators. -/
def gUnitM (fuel : Nat) : MRests :=
  seqM tokM (starM fuel (clsSeqM [chEq ',', isWsC]))

/-- Tail of the fourth classification rule: an optional adjacency marker, an
optional whitespace, zero or more digits, an optional whitespace and an
optional letter. -/
def rule4TailM : MRests :=
  seqM (optM (seqM (chM isWsC) (litM ['n', 'e', 'b', 'e', 'n'])))
    (seqM (optM (chM isWsC))
      (seqM digitsStarM (seqM (optM (chM isWsC)) (optM (chM isAlphaC)))))

/-- The fourth classification rule: a part-of marker, then one or more
number-token groups, then the rule tail, spanning the whole input. -/
def matchRule4 (l : List Char) : Bool :=
  ((seqM thPrefM
      (seqM (chM isWsC)
        (seqM (plusM (l.length + 1) (gUnitM (l.length + 1))) rule4TailM))) l).any
    List.isEmpty

/-- The fifth classification rule: a part-of marker, a number token and an
arbitrary non-empty remainder without newlines. -/
def matchRule5 (l : List Char) : Bool :=
  ((seqM thPrefM (seqM (chM isWsC) tokM)) l).any
    (fun r => !r.isEmpty && r.all notNl)

/-- Dedicated adjacency scan of the fifth rule: part-of marker, number
token, adjacency word, then one or more digits; returns the final digit run
of the first successful decomposition in backtracking order. -/
def neighbourScan (l : List Char) : Option String :=
  (((seqM thPrefM
        (seqM (chM isWsC)
          (seqM tokM
            (seqM (chM isWsC) (seqM (litM ['n', 'e', 'b', 'e', 'n']) (chM isWsC)))))) l).find?
      (fun r => !(r.takeWhile isDigitC).isEmpty)).map
    (fun r => String.mk (r.takeWhile isDigitC))

/-- Separator recognizer of the split of the first rule, trying the four
alternatives in the order of the source regex. -/
def sepAt1 (l : List Char) : Option Nat :=
  if clsAt [chEq ',', isWsC] l then some 2
  else if clsAt [isWsC, chEq '/', isWsC] l then some 3
  else if clsAt [isWsC, chEq '+', isWsC] l then some 3
  else if clsAt [isWsC, chEq 'u', chEq '.', isWsC] l then some 4
  else none

/-- Separator recognizer of the split of the second rule. -/
def sepAt2 (l : List Char) : Option Nat :=
  if clsAt [chEq ',', isWsC] l then some 2
  else if clsAt [isWsC, chEq '/', isWsC] l then some 3
  else if clsAt ([isWsC] ++ litCls "(Bann)") l then some 7
  else none

/-- Separator recognizer of the split of the fourth rule: the four part-of
markers, the adjacency word, and comma-space. -/
def sepAt4 (l : List Char) : Option Nat :=
  if clsAt (patThVdot ++ [isWsC]) l then some 7
  else if clsAt (litCls "Theil von" ++ [isWsC]) l then some 10
  else if clsAt (patTheilVdot ++ [isWsC]) l then some 9
  else if clsAt (patThVon ++ [isWsC]) l then some 8
  else if clsAt ([isWsC] ++ litCls "neben" ++ [isWsC]) l then some 7
  else if clsAt [chEq ',', isWsC] l then some 2
  else none

/-- Separator recognizer of the split of the fifth rule: the four part-of
markers, comma-space, and any single whitespace character. -/
def sepAt5 (l : List Char) : Option Nat :=
  if clsAt (patThVdot ++ [isWsC]) l then some 7
  else if clsAt (litCls "Theil von" ++ [isWsC]) l then some 10
  else if clsAt (patTheilVdot ++ [isWsC]) l then some 9
  else if clsAt (patThVon ++ [isWsC]) l then some 8
  else if clsAt [chEq ',', isWsC] l then some 2
  else if clsAt [isWsC] l then some 1
  else none

/-- Core of the regex split: scan the input from the left, cut at each
leftmost separator match, and continue after it.  The fuel is always
instantiated with more than the input length, which is enough because every
step consumes at least one character. -/
def reSplitGo (sepAt : List Char → Option Nat) : Nat → List Char → List Char → List String
  | 0, acc, l => [String.mk (acc.reverse ++ l)]
  | fuel + 1, acc, l =>
    match sepAt l with
    | some n => String.mk acc.reverse :: reSplitGo sepAt fuel [] (l.drop n)
    | none =>
      match l with
      | [] => [String.mk acc.reverse]
      | c :: cs => reSplitGo sepAt fuel (c :: acc) cs

/-- Regex split of an input along a separator recognizer. -/
def reSplit (sepAt : List Char → Option Nat) (l : List Char) : List String :=
  reSplitGo sepAt (l.length + 1) [] l

/-- Core of the regex split with a bounded number of cuts. -/
def reSplitMaxGo (sepAt : List Char → Option Nat) :
    Nat → Nat → List Char → List Char → List String
  | 0, _, acc, l => [String.mk (acc.reverse ++ l)]
  | fuel + 1, k, acc, l =>
    if k = 0 then [String.mk (acc.reverse ++ l)]
    else
      match sepAt l with
      | some n => String.mk acc.reverse :: reSplitMaxGo sepAt fuel (k - 1) [] (l.drop n)
      | none =>
        match l with
        | [] => [String.mk acc.reverse]
        | c :: cs => reSplitMaxGo sepAt fuel k (c :: acc) cs

/-- Regex split with at most k cuts, as the split with a maxsplit bound. -/
def reSplitMax (sepAt : List Char → Option Nat) (k : Nat) (l : List Char) : List String :=
  reSplitMaxGo sepAt (l.length + 1) k [] l

/-- Number extracted by the third rule, by the greedy anchored search for
digits, an optional whitespace and an optional letter followed by a
whitespace or comma. -/
def rule3Num (l : List Char) : List Char :=
  let d := l.takeWhile isDigitC
  let rest := l.dropWhile isDigitC
  match rest with
  | c :: rest2 =>
    if isWsC c then
      match rest2 with
      | a :: b :: _ =>
        if isAlphaC a && (isWsC b || b == ',') then d ++ [c, a, b] else d ++ [c]
      | _ => d ++ [c]
    else
      match rest2 with
      | b :: _ => if isAlphaC c && (isWsC b || b == ',') then d ++ [c, b] else d
      | [] => d
  | [] => d

/-- Characters that are special in a regex pattern. -/
def isRegexMeta (c : Char) : Bool :=
  ['\\', '.', '^', '$', '*', '+', '?', '\x7b', '\x7d', '[', ']', '(', ')', '|'].contains c

/-- Modelled start position of an unanchored search whose pattern is a
dynamically built token, as in the fifth-rule supplement extraction of the
source.  The model is faithful when the token is free of regex
metacharacters, in which case the search is a literal substring search.  A
token containing a metacharacter makes the Python engine either raise a
pattern compilation error (for example on an unbalanced parenthesis) or
search with regex rather than literal semantics; both are modelled as an
error, and a failed search is the modelled attribute error on a missing
match object. -/
def reSearchStart (pat : List Char) (l : List Char) : Except String Nat :=
  if pat.any isRegexMeta then .error "re.error"
  else
    match firstIndexAt l pat with
    | some i => .ok i
    | none => .error "AttributeError"

/-- List indexing that fails like a Python list index out of range. -/
def getIdx (xs : List String) (i : Nat) : Except String String :=
  match xs.get? i with
  | some x => .ok x
  | none => .error "IndexError"

/-- The Python isnumeric test, restricted to ASCII digits. -/
def isNumericS (s : String) : Bool := !s.toList.isEmpty && s.toList.all isDigitC

/-- Consecutive numeric tokens of the fifth rule, walked exactly like the
source loop: tokens are collected while numeric, and the returned index is
the loop variable at the break, or the last index when the loop runs out. -/
def collectGo (ts : List String) (i : Nat) : List String × Nat :=
  match ts with
  | [] => ([], i - 1)
  | t :: rest =>
    if isNumericS t then
      let r := collectGo rest (i + 1)
      (t :: r.1, r.2)
    else ([], i)

/-- Structured result of the old-house-number parser: numbers, supplement,
neighbouring number, part-of flag and district flag. -/
structure ParsedOld where
  numbers : Option (List String)
  supplement : Option String
  neighbouringNumber : Option String
  isPartOf : Option Bool
  isBann : Option Bool
deriving DecidableEq, Repr

deriving instance DecidableEq for Except

/-- Diagnostic message of the false-positive check of the parser. -/
def logMsg : String :=
  "Log: Alte Hausnummer wurde als neue Hausnummer detektiert. Alte Hausnummer wurde nicht aufbereitet."

/-- District check of the parser: an unanchored search for the capitalized
or lowercase district word. -/
def bannCheck (s : String) : Bool :=
  containsSub s.toList ['B', 'a', 'n', 'n'] || containsSub s.toList ['b', 'a', 'n', 'n']

/-- Extraction of the fourth classification rule. -/
def rule4Extract (l : List Char) (ib : Bool) : Except String ParsedOld :=
  let split := reSplit sepAt4 l
  if containsSub l ['n', 'e', 'b', 'e', 'n'] then
    match split.get? 1, split.getLast? with
    | some n1, some last => .ok ⟨some [n1], some "neben", some last, some true, some ib⟩
    | _, _ => .error "IndexError"
  else
    .ok ⟨some (split.drop 1), none, none, some true, some ib⟩

/-- Extraction of the fifth classification rule, with its three
disambiguation branches and the dedicated adjacency scan. -/
def rule5Extract (l : List Char) (ib : Bool) : Except String ParsedOld :=
  let split := reSplit sepAt5 l
  match getIdx split 2 with
  | .error e => .error e
  | .ok s2 =>
    let core : Except String (List String × String) :=
      if (s2.toList.length == 1) && s2.toList.all isAlphaC then
        match getIdx split 1, getIdx split 3 with
        | .ok s1, .ok s3 =>
          match reSearchStart s3.toList l with
          | .ok i => .ok ([s1 ++ " " ++ s2], String.mk (l.drop i))
          | .error e => .error e
        | .error e, _ => .error e
        | _, .error e => .error e
      else if isNumericS s2 then
        let c := collectGo (split.drop 1) 1
        match getIdx split c.2 with
        | .ok pat =>
          match reSearchStart pat.toList l with
          | .ok i => .ok (c.1, String.mk (l.drop i))
          | .error e => .error e
        | .error e => .error e
      else
        let split2 := reSplitMax sepAt5 2 l
        match getIdx split2 1, getIdx split2 2 with
        | .ok s1, .ok sup => .ok ([s1], sup)
        | .error e, _ => .error e
        | _, .error e => .error e
    match core with
    | .error e => .error e
    | .ok nsup => .ok ⟨some nsup.1, some nsup.2, neighbourScan l, some true, some ib⟩

/-- The classification cascade of split_old_house_number: the five rules in
priority order, first match wins, otherwise the unparsed result carrying
the already computed district flag. -/
def classifyOld (s : String) (ib : Bool) : Except String ParsedOld :=
  let l := s.toList
  if matchRule1 l then
    .ok ⟨some (reSplit sepAt1 l), none, none, some false, some ib⟩
  else if matchRule2 l then
    .ok ⟨some ((reSplit sepAt2 l).dropLast), none, none, some false, some ib⟩
  else if matchRule3 l then
    let number := rule3Num l
    let supplement := String.mk (l.drop number.length)
    let number2 :=
      if (match number.getLast? with
          | some c => isWsC c || c == ','
          | none => false) then
        number.dropLast
      else number
    .ok ⟨some [String.mk number2], some supplement, none, some false, some ib⟩
  else if matchRule4 l then rule4Extract l ib
  else if matchRule5 l then rule5Extract l ib
  else .ok ⟨none, none, none, none, some ib⟩

/-- Membership of the optional new house number in the parsed numbers, as
the Python membership test in which a missing value is never a member of a
list of strings. -/
def elemOpt (newHousenumber : Option String) (ns : List String) : Bool :=
  match newHousenumber with
  | some x => ns.contains x
  | none => false

/-- The function split_old_house_number: a missing input yields the all-null
result, otherwise the district check and the classification cascade run,
and a parsed number list containing the already guessed new house number is
discarded in favour of the diagnostic result. -/
def splitOldHouseNumber (old newHousenumber : Option String) : Except String ParsedOld :=
  match old with
  | none => .ok ⟨none, none, none, none, none⟩
  | some s =>
    let ib := bannCheck s
    match classifyOld s ib with
    | .error e => .error e
    | .ok r =>
      match r.numbers with
      | some ns =>
        if elemOpt newHousenumber ns then .ok ⟨none, some logMsg, none, none, none⟩
        else .ok r
      | none => .ok r

/-- Character class of the address pattern of get_new_house_number: letters,
the three lowercase umlauts, point, hyphen and whitespace. -/
def isAddrCls (c : Char) : Bool :=
  isAlphaC c || c == 'ä' || c == 'ö' || c == 'ü' || c == '.' || c == '-' || isWsC c

/-- The anchored address pattern: one or more class characters, one or more
digits, an optional lowercase letter, end of input.  The decomposition is
forced because the class contains no digit. -/
def matchAddress (l : List Char) : Bool :=
  let p := l.takeWhile isAddrCls
  let r1 := l.dropWhile isAddrCls
  let d := r1.takeWhile isDigitC
  let r2 := r1.dropWhile isDigitC
  !p.isEmpty && !d.isEmpty &&
    (match r2 with
     | [] => true
     | [a] => isLowerC a
     | _ => false)

/-- Search for digits with an optional lowercase letter anchored at the end
of the input: the leftmost such match is the longest suffix of that form. -/
def numSuffixSearch (l : List Char) : Option String :=
  match l.reverse with
  | [] => none
  | c :: rest =>
    if isLowerC c then
      let d := rest.takeWhile isDigitC
      if d.isEmpty then none else some (String.mk (d.reverse ++ [c]))
    else
      let d := (c :: rest).takeWhile isDigitC
      if d.isEmpty then none else some (String.mk d.reverse)

/-- Unanchored search for the first digit run with an optional trailing
lowercase letter. -/
def firstNumSearch : List Char → Option String
  | [] => none
  | c :: cs =>
    if isDigitC c then
      let d := (c :: cs).takeWhile isDigitC
      let r := (c :: cs).dropWhile isDigitC
      some
        (String.mk
          (d ++
            (match r with
             | x :: _ => if isLowerC x then [x] else []
             | [] => [])))
    else firstNumSearch cs

/-- Separator recognizer splitting on every single space character, as the
Python string split on a space. -/
def sepAtSpace (l : List Char) : Option Nat :=
  match l with
  | c :: _ => if c == ' ' then some 1 else none
  | [] => none

/-- The function get_new_house_number: titles containing a colon are
excluded; a title matching the full address pattern yields the trailing
number of its single token or its last space-separated token; otherwise the
first digit run found anywhere is returned. -/
def getNewHouseNumber (title : String) : Option String :=
  let l := title.toList
  if l.contains ':' then none
  else if matchAddress l then
    match reSplit sepAtSpace l with
    | [single] => numSuffixSearch single.toList
    | parts => parts.getLast?
  else firstNumSearch l

/-- Shape of a number token: one or more digits optionally followed by one
letter. -/
def numTokenShape (s : String) : Bool :=
  let d := s.toList.takeWhile isDigitC
  let r := s.toList.dropWhile isDigitC
  !d.isEmpty &&
    (match r with
     | [] => true
     | [a] => isAlphaC a
     | _ => false)

/-- One row of the manual correction table. -/
structure CorrectionRow where
  dossierId : String
  oldHouseNumberNumberCorr : Option String
  oldHousenumberIsPartOfCorr : Option Bool
  oldHousenumberNeighbouringNumberCorr : Option String
  oldHousenumberSupplementAddition : Option String
deriving DecidableEq, Repr

/-- Result row of the correction overlay. -/
structure CorrectedOld where
  numbers : Option (List String)
  isPartOf : Option Bool
  neighbouringNumber : Option String
  supplement : Option String
  isCorrected : Bool
deriving DecidableEq, Repr

/-- Scan of a single-quoted Python string item up to its closing quote; the
quote character is written by its code point. -/
def pyStrItemGo : List Char → List Char → Option (String × List Char)
  | [], _ => none
  | c :: rest, acc =>
    if c.toNat = 39 then some (String.mk acc.reverse, rest)
    else pyStrItemGo rest (c :: acc)

/-- Parse one single-quoted Python string item. -/
def pyStrItem (l : List Char) : Option (String × List Char) :=
  match l with
  | c :: rest => if c.toNat = 39 then pyStrItemGo rest [] else none
  | [] => none

/-- Parse the items of a Python list literal after the opening bracket. -/
def pyItemsGo : Nat → List Char → Option (List String)
  | 0, _ => none
  | fuel + 1, l =>
    match pyStrItem l with
    | none => none
    | some (s, rest) =>
      match rest with
      | ']' :: tail => if tail.isEmpty then some [s] else none
      | ',' :: ' ' :: tail => (pyItemsGo fuel tail).map (s :: ·)
      | _ => none

/-- Modelled restriction of the Python literal evaluation used for the
textual number-list encoding of the correction table: a list literal of
single-quoted strings separated by comma-space, such as a bracketed pair of
quoted tokens.  Any other input counts as a malformed encoding. -/
def pyListOfStrings (s : String) : Option (List String) :=
  match s.toList with
  | '[' :: ']' :: tail => if tail.isEmpty then some [] else none
  | '[' :: rest => pyItemsGo (rest.length + 1) rest
  | _ => none

/-- The function correct_old_house_number: a dossier id without a matching
row returns the inputs unchanged with a false corrected flag; otherwise
each override whose column holds any non-null value among the matching rows
is taken from the first matching row, the supplement addition is appended
to the supplement, and the corrected flag is true.  The literal evaluation
of a null first-row value and the string concatenation with a null first-row
value are the modelled Python type errors. -/
def correctOldHouseNumber (dossierid : String) (number : Option (List String))
    (ispartof : Option Bool) (neighbouring : Option String) (supplement : Option String)
    (dfCorrections : List CorrectionRow) : Except String CorrectedOld :=
  match dfCorrections.filter (fun row => row.dossierId == dossierid) with
  | [] => .ok ⟨number, ispartof, neighbouring, supplement, false⟩
  | r0 :: rs =>
    let rows := r0 :: rs
    let numberRes : Except String (Option (List String)) :=
      if rows.any (fun row => row.oldHouseNumberNumberCorr.isSome) then
        match r0.oldHouseNumberNumberCorr with
        | some enc =>
          match pyListOfStrings enc with
          | some xs => .ok (some xs)
          | none => .error "ValueError: malformed node or string"
        | none => .error "ValueError: literal structure of a null value"
      else .ok number
    match numberRes with
    | .error e => .error e
    | .ok number1 =>
      let ispartof1 :=
        if rows.any (fun row => row.oldHousenumberIsPartOfCorr.isSome) then
          r0.oldHousenumberIsPartOfCorr
        else ispartof
      let neighbouring1 :=
        if rows.any (fun row => row.oldHousenumberNeighbouringNumberCorr.isSome) then
          r0.oldHousenumberNeighbouringNumberCorr
        else neighbouring
      if rows.any (fun row => row.oldHousenumberSupplementAddition.isSome) then
        match r0.oldHousenumberSupplementAddition with
        | some add =>
          let supplement1 :=
            match supplement with
            | none => some ("manuell erfasste Bemerkung: " ++ add)
            | some sup => some (sup ++ " , zusätzliche manuell erfasste Bemerkung: " ++ add)
          .ok ⟨number1, ispartof1, neighbouring1, supplement1, true⟩
        | none => .error "TypeError: concatenation with a null value"
      else .ok ⟨number1, ispartof1, neighbouring1, supplement, true⟩

/-- The four separators of the plain number list rule, named. -/
inductive SepTok
  | comma
  | slash
  | plusT
  | und
deriving DecidableEq, Repr

/-- Characters of each named separator. -/
def sepTokChars : SepTok → List Char
  | .comma => [',', ' ']
  | .slash => [' ', '/', ' ']
  | .plusT => [' ', '+', ' ']
  | .und => [' ', 'u', '.', ' ']

/-- A number token of the plain number list: one or more digits, optionally
followed by a letter with or without one separating space. -/
def numTokenOK (t : List Char) : Bool :=
  let d := t.takeWhile isDigitC
  let r := t.dropWhile isDigitC
  !d.isEmpty &&
    (match r with
     | [] => true
     | [a] => isAlphaC a
     | [w, a] => w == ' ' && isAlphaC a
     | _ => false)

/-- Concatenation of alternating separators and tokens. -/
def tailJoin : List (SepTok × List Char) → List Char
  | [] => []
  | (sk, t) :: rest => sepTokChars sk ++ t ++ tailJoin rest

/-- A full plain number list: a first token, then separator-token pairs. -/
def joinTokens (t0 : List Char) (rest : List (SepTok × List Char)) : List Char :=
  t0 ++ tailJoin rest

/-- The token strings of a plain number list, in order. -/
def tokenStrings (t0 : List Char) (rest : List (SepTok × List Char)) : List String :=
  String.mk t0 :: rest.map (fun p => String.mk p.2)

/-- No separator of the first rule matches while walking through the first
list with the second list as the following context. -/
def noSep1 : List Char → List Char → Prop
  | [], _ => True
  | c :: t, r => sepAt1 (c :: (t ++ r)) = none ∧ noSep1 t r

/-- Fuel needed by the split to walk the separator-token pairs. -/
def fuelFor : List (SepTok × List Char) → Nat
  | [] => 0
  | (_, t) :: more => 1 + t.length + fuelFor more

lemma rule4Extract_isBann (l : List Char) (ib : Bool) (r : ParsedOld)
    (h : rule4Extract l ib = .ok r) : r.isBann = some ib := by
  simp only [rule4Extract] at h
  split at h
  · split at h
    · injection h with h; subst h; rfl
    · exact absurd h (by simp)
  · injection h with h; subst h; rfl

lemma rule5Extract_isBann (l : List Char) (ib : Bool) (r : ParsedOld)
    (h : rule5Extract l ib = .ok r) : r.isBann = some ib := by
  simp only [rule5Extract] at h
  split at h
  · exact absurd h (by simp)
  · split at h
    · exact absurd h (by simp)
    · injection h with h; subst h; rfl

lemma classifyOld_isBann (s : String) (ib : Bool) (r : ParsedOld)
    (h : classifyOld s ib = .ok r) : r.isBann = some ib := by
  simp only [classifyOld] at h
  split at h
  · injection h with h; subst h; rfl
  · split at h
    · injection h with h; subst h; rfl
    · split at h
      · injection h with h; subst h; rfl
      · split at h
        · exact rule4Extract_isBann _ _ _ h
        · split at h
          · exact rule5Extract_isBann _ _ _ h
          · injection h with h; subst h; rfl

/-- Claim C1: for every non-null old-house-number text for which the
classification cascade produced a non-null numbers list containing the
passed-in new house number, split_old_house_number discards the structured
result and returns the diagnostic tuple: numbers, isPartOf,
neighbouringNumber and isBann all null and supplement equal to the fixed
diagnostic string. -/
theorem split_false_positive_diagnostic (s : String) (newHousenumber : Option String)
    (r : ParsedOld) (ns : List String)
    (hc : classifyOld s (bannCheck s) = .ok r) (hn : r.numbers = some ns)
    (he : elemOpt newHousenumber ns = true) :
    splitOldHouseNumber (some s) newHousenumber = .ok ⟨none, some logMsg, none, none, none⟩ := by
  simp only [splitOldHouseNumber, hc, hn, he, if_true]

/-- Witness for claim C1 at the old number 12 with the new number 12. -/
theorem split_false_positive_diagnostic_app :
    splitOldHouseNumber (some "12") (some "12") = .ok ⟨none, some logMsg, none, none, none⟩ :=
  split_false_positive_diagnostic "12" (some "12")
    ⟨some ["12"], none, none, some false, some false⟩ ["12"] rfl rfl rfl

/-- Claim C7 as amended: whenever split_old_house_number returns a result
whose isBann is non-null, isBann is true exactly when the text contains the
literal substrings Bann or bann; the check is independent of which
classification rule fires, but the false-positive post-check nulls it. -/
theorem split_isBann_exact (s : String) (newHousenumber : Option String) (r : ParsedOld)
    (h : splitOldHouseNumber (some s) newHousenumber = .ok r) (hb : r.isBann ≠ none) :
    r.isBann = some (bannCheck s) := by
  simp only [splitOldHouseNumber] at h
  cases hc : classifyOld s (bannCheck s) with
  | error e => simp only [hc] at h; exact absurd h (by simp)
  | ok r0 =>
    simp only [hc] at h
    cases hn : r0.numbers with
    | none => simp only [hn] at h; injection h with h; subst h; exact classifyOld_isBann _ _ _ hc
    | some ns =>
      simp only [hn] at h
      by_cases he : elemOpt newHousenumber ns = true
      · rw [if_pos he] at h
        injection h with h; subst h
        exact absurd rfl hb
      · rw [if_neg he] at h
        injection h with h; subst h
        exact classifyOld_isBann _ _ _ hc

/-- Witness for the amended claim C7 at a rule-three input containing the
district word. -/
theorem split_isBann_exact_app :
    (⟨some ["7"], some "Bann z", none, some false, some true⟩ : ParsedOld).isBann =
      some (bannCheck "7 Bann z") :=
  split_isBann_exact "7 Bann z" none
    ⟨some ["7"], some "Bann z", none, some false, some true⟩ rfl (by decide)

/-- Claim C3 as amended: the false-positive treatment discards all
structured fields including isBann (the returned isBann is null, not the
computed value), while supplement is replaced with the diagnostic note. -/
theorem split_false_positive_discards_isBann (s : String) (newHousenumber : Option String)
    (r : ParsedOld) (ns : List String)
    (hc : classifyOld s (bannCheck s) = .ok r) (hn : r.numbers = some ns)
    (he : elemOpt newHousenumber ns = true) :
    ∃ out, splitOldHouseNumber (some s) newHousenumber = .ok out ∧
      out.isBann = none ∧ out.numbers = none ∧ out.isPartOf = none ∧
      out.neighbouringNumber = none ∧ out.supplement = some logMsg := by
  refine ⟨⟨none, some logMsg, none, none, none⟩, ?_, rfl, rfl, rfl, rfl, rfl⟩
  simp only [splitOldHouseNumber, hc, hn, he, if_true]

/-- Witness for the amended claim C3 at the old number 48 Bann with the
new number 48. -/
theorem split_false_positive_discards_isBann_app :
    ∃ out, splitOldHouseNumber (some "48 Bann") (some "48") = .ok out ∧
      out.isBann = none ∧ out.numbers = none ∧ out.isPartOf = none ∧
      out.neighbouringNumber = none ∧ out.supplement = some logMsg :=
  split_false_positive_discards_isBann "48 Bann" (some "48")
    ⟨some ["48"], some "Bann", none, some false, some true⟩ ["48"] rfl rfl rfl

/-- Claim C8: a dossier id absent from the correction table returns all
four input fields unchanged with isCorrected false, and a present id
returns isCorrected true in every returning branch, regardless of whether
any individual field changed. -/
theorem correct_frame_and_flag (dossierid : String) (number : Option (List String))
    (ispartof : Option Bool) (neighbouring : Option String) (supplement : Option String)
    (df : List CorrectionRow) :
    (df.filter (fun row => row.dossierId == dossierid) = [] →
      correctOldHouseNumber dossierid number ispartof neighbouring supplement df =
        .ok ⟨number, ispartof, neighbouring, supplement, false⟩) ∧
    (df.filter (fun row => row.dossierId == dossierid) ≠ [] →
      ∀ out, correctOldHouseNumber dossierid number ispartof neighbouring supplement df = .ok out →
        out.isCorrected = true) := by
  constructor
  · intro h
    simp only [correctOldHouseNumber, h]
  · intro h out hout
    cases hf : df.filter (fun row => row.dossierId == dossierid) with
    | nil => exact absurd hf h
    | cons r0 rs =>
      simp only [correctOldHouseNumber, hf] at hout
      split at hout
      · exact absurd hout (by simp)
      · split at hout
        · split at hout
          · injection hout with hout; subst hout; rfl
          · exact absurd hout (by simp)
        · injection hout with hout; subst hout; rfl

/-- Witness for claim C8 with an absent id and with a present id. -/
theorem correct_frame_and_flag_app :
    correctOldHouseNumber "D1" (some ["1"]) none none none [⟨"D2", none, none, none, none⟩] =
      .ok ⟨some ["1"], none, none, none, false⟩ ∧
    (⟨some ["1"], none, none, some "manuell erfasste Bemerkung: x", true⟩ : CorrectedOld).isCorrected = true :=
  ⟨(correct_frame_and_flag "D1" (some ["1"]) none none none [⟨"D2", none, none, none, none⟩]).1 (by decide),
   (correct_frame_and_flag "D1" (some ["1"]) none none none [⟨"D1", none, none, none, some "x"⟩]).2
     (by decide) ⟨some ["1"], none, none, some "manuell erfasste Bemerkung: x", true⟩ rfl⟩

/-- Claim C4 as amended: applying correct_old_house_number a second time
with the same correction table to the output fields of a first successful
application yields the same result, provided the rows matching the dossier
id carry no non-null supplement addition. -/
theorem correct_idem_no_sup_addition (dossierid : String) (number : Option (List String))
    (ispartof : Option Bool) (neighbouring : Option String) (supplement : Option String)
    (df : List CorrectionRow) (out : CorrectedOld)
    (hs : ∀ row ∈ df, row.dossierId = dossierid → row.oldHousenumberSupplementAddition = none)
    (h : correctOldHouseNumber dossierid number ispartof neighbouring supplement df = .ok out) :
    correctOldHouseNumber dossierid out.numbers out.isPartOf out.neighbouringNumber
      out.supplement df = .ok out := by
  cases hf : df.filter (fun row => row.dossierId == dossierid) with
  | nil =>
    simp only [correctOldHouseNumber, hf] at h ⊢
    injection h with h; subst h; rfl
  | cons r0 rs =>
    have hmem : ∀ row ∈ r0 :: rs, row.oldHousenumberSupplementAddition = none := by
      intro row hr
      rw [← hf] at hr
      have := List.mem_filter.mp hr
      exact hs row this.1 (by simpa using this.2)
    have hsup : ((r0 :: rs).any fun row => row.oldHousenumberSupplementAddition.isSome) = false := by
      rw [List.any_eq_false]
      intro row hr
      simp [hmem row hr]
    simp only [correctOldHouseNumber, hf, hsup, Bool.false_eq_true, if_false] at h ⊢
    by_cases hq : ((r0 :: rs).any fun row => row.oldHouseNumberNumberCorr.isSome) = true
    · rw [if_pos hq] at h ⊢
      cases hc : r0.oldHouseNumberNumberCorr with
      | none => simp only [hc] at h; exact absurd h (by simp)
      | some enc =>
        simp only [hc] at h ⊢
        cases hp : pyListOfStrings enc with
        | none => simp only [hp] at h; exact absurd h (by simp)
        | some xs =>
          simp only [hp] at h ⊢
          injection h with h; subst h
          by_cases h1 : ((r0 :: rs).any fun row => row.oldHousenumberIsPartOfCorr.isSome) = true <;>
            by_cases h2 : ((r0 :: rs).any fun row => row.oldHousenumberNeighbouringNumberCorr.isSome) = true <;>
            simp [h1, h2]
    · rw [if_neg hq] at h ⊢
      simp only at h ⊢
      injection h with h; subst h
      by_cases h1 : ((r0 :: rs).any fun row => row.oldHousenumberIsPartOfCorr.isSome) = true <;>
        by_cases h2 : ((r0 :: rs).any fun row => row.oldHousenumberNeighbouringNumberCorr.isSome) = true <;>
        simp [h1, h2]

/-- Witness for the amended claim C4 with overrides for numbers, part-of
and neighbouring number but no supplement addition. -/
theorem correct_idem_no_sup_addition_app :
    correctOldHouseNumber "D1" (some ["7"]) (some true) (some "9") (some "s")
      [⟨"D1", some "['7']", some true, some "9", none⟩] =
      .ok ⟨some ["7"], some true, some "9", some "s", true⟩ :=
  correct_idem_no_sup_addition "D1" none none none (some "s")
    [⟨"D1", some "['7']", some true, some "9", none⟩]
    ⟨some ["7"], some true, some "9", some "s", true⟩ (by decide) rfl

/-- Counterexample to claim C4: with a correction row carrying a
supplement addition, applying correct_old_house_number a second time to the
output fields of a first application appends the remark again and yields a
different result. -/
theorem correct_twice_differs :
    correctOldHouseNumber "D1" (some ["1"]) (some false) none none
        [⟨"D1", none, none, none, some "x"⟩] =
      .ok ⟨some ["1"], some false, none, some "manuell erfasste Bemerkung: x", true⟩ ∧
    correctOldHouseNumber "D1" (some ["1"]) (some false) none
        (some "manuell erfasste Bemerkung: x") [⟨"D1", none, none, none, some "x"⟩] ≠
      .ok ⟨some ["1"], some false, none, some "manuell erfasste Bemerkung: x", true⟩ :=
  ⟨rfl, by decide⟩

/-- Claim C10: with two rows for the same dossier id, the overlay checks
all matching rows for a non-null numbers override but decodes the value of
the first matching row: a null first row with a non-null later row raises
the modelled literal-evaluation error, while the swapped table decodes the
first row's value. -/
theorem correct_reads_first_matching_row :
    correctOldHouseNumber "D1" none none none none
        [⟨"D1", none, none, none, none⟩, ⟨"D1", some "['5']", none, none, none⟩] =
      .error "ValueError: literal structure of a null value" ∧
    correctOldHouseNumber "D1" none none none none
        [⟨"D1", some "['5']", none, none, none⟩, ⟨"D1", none, none, none, none⟩] =
      .ok ⟨some ["5"], none, none, none, true⟩ :=
  ⟨rfl, rfl⟩

/-- Claim C2 (code bug): split_old_house_number is not total; on the text
of a part-of construction whose postfix token contains an unbalanced
parenthesis, rule five passes the token as a regex pattern and the Python
engine raises a pattern compilation error, modelled here as an error
result. -/
theorem split_error_on_paren_token :
    splitOldHouseNumber (some "Theil von 5 a (x") none = .error "re.error" := rfl

/-- Counterexample to claim C5: on the empty (non-null) old-house-number
string the parser returns isBann equal to false, not null. -/
theorem split_empty_isBann_false :
    splitOldHouseNumber (some "") none = .ok ⟨none, none, none, none, some false⟩ := rfl

/-- Claim C5 as amended: a null old-house-number input yields all five
fields null, while the empty string yields the four structured fields null
and isBann equal to false. -/
theorem split_null_and_empty_fields (newHousenumber : Option String) :
    splitOldHouseNumber none newHousenumber = .ok ⟨none, none, none, none, none⟩ ∧
    splitOldHouseNumber (some "") newHousenumber = .ok ⟨none, none, none, none, some false⟩ :=
  ⟨rfl, rfl⟩

/-- Counterexample to claim C7: the text BANN contains the district word
case-insensitively yet isBann is returned false, and on a false-positive
input containing Bann the returned isBann is null rather than true. -/
theorem split_isBann_counterexample :
    splitOldHouseNumber (some "BANN") none = .ok ⟨none, none, none, none, some false⟩ ∧
    splitOldHouseNumber (some "12 Bann") (some "12") =
      .ok ⟨none, some logMsg, none, none, none⟩ :=
  ⟨rfl, rfl⟩

/-- Counterexample to claim C3: on the false-positive input whose computed
district flag is true, the returned result carries a null isBann, so the
computed isBann value is not preserved. -/
theorem split_isBann_not_preserved :
    bannCheck "48 Bann" = true ∧
    splitOldHouseNumber (some "48 Bann") (some "48") =
      .ok ⟨none, some logMsg, none, none, none⟩ :=
  ⟨rfl, rfl⟩

/-- Counterexample to claim C9: on the title consisting of a letter, a
space and a letter-digit token, get_new_house_number returns the last
space-separated token, which contains a street-name letter and is not a
number token. -/
theorem getNew_last_token_counterexample :
    getNewHouseNumber "a b1" = some "b1" ∧ numTokenShape "b1" = false :=
  ⟨rfl, rfl⟩

lemma isLowerC_isAlphaC (c : Char) (h : isLowerC c = true) : isAlphaC c = true := by
  simp only [isAlphaC, Bool.or_eq_true]
  exact Or.inl h

lemma isLowerC_not_digit (c : Char) (h : isLowerC c = true) : isDigitC c = false := by
  by_contra hb
  rw [Bool.not_eq_false] at hb
  simp only [isLowerC, Bool.and_eq_true, decide_eq_true_eq] at h
  simp only [isDigitC, Bool.and_eq_true, decide_eq_true_eq] at hb
  exact absurd (le_trans h.1 hb.2) (by decide)

lemma takeWhile_all_append (p : Char → Bool) (xs ys : List Char)
    (hx : ∀ x ∈ xs, p x = true) (hy : ∀ y, ys.head? = some y → p y = false) :
    (xs ++ ys).takeWhile p = xs ∧ (xs ++ ys).dropWhile p = ys := by
  induction xs with
  | nil =>
    simp only [List.nil_append]
    cases ys with
    | nil => simp [List.takeWhile, List.dropWhile]
    | cons y ys' =>
      have := hy y rfl
      simp [List.takeWhile, List.dropWhile, this]
  | cons x xs' ih =>
    have hpx := hx x (by simp)
    have := ih (fun a ha => hx a (by simp [ha]))
    simp [List.takeWhile, List.dropWhile, hpx, this.1, this.2]

lemma numSuffixSearch_shape (l : List Char) (s : String)
    (h : numSuffixSearch l = some s) : numTokenShape s = true := by
  unfold numSuffixSearch at h
  cases hr : l.reverse with
  | nil => simp only [hr] at h; exact absurd h (by simp)
  | cons c rest =>
    simp only [hr] at h
    by_cases hl : isLowerC c = true
    · rw [if_pos hl] at h
      by_cases hd : (rest.takeWhile isDigitC).isEmpty = true
      · rw [if_pos hd] at h; exact absurd h (by simp)
      · rw [if_neg hd] at h
        injection h with h; subst h
        have hall : ∀ x ∈ (rest.takeWhile isDigitC).reverse, isDigitC x = true := by
          intro x hx
          exact List.mem_takeWhile_imp (List.mem_reverse.mp hx)
        have hnd : ∀ y, ([c] : List Char).head? = some y → isDigitC y = false := by
          intro y hy
          simp only [List.head?] at hy
          injection hy with hy; subst hy
          exact isLowerC_not_digit c hl
        have htw := takeWhile_all_append isDigitC ((rest.takeWhile isDigitC).reverse) [c] hall hnd
        simp only [numTokenShape, String.toList, htw.1, htw.2]
        have : ((rest.takeWhile isDigitC).reverse).isEmpty = false := by
          simp only [List.isEmpty_iff] at hd ⊢
          simpa using hd
        simp [this, isLowerC_isAlphaC c hl]
    · rw [if_neg hl] at h
      by_cases hd : ((c :: rest).takeWhile isDigitC).isEmpty = true
      · rw [if_pos hd] at h; exact absurd h (by simp)
      · rw [if_neg hd] at h
        injection h with h; subst h
        have hall : ∀ x ∈ ((c :: rest).takeWhile isDigitC).reverse, isDigitC x = true := by
          intro x hx
          exact List.mem_takeWhile_imp (List.mem_reverse.mp hx)
        have htw := takeWhile_all_append isDigitC (((c :: rest).takeWhile isDigitC).reverse) [] hall
          (by intro y hy; exact absurd hy (by simp))
        simp only [numTokenShape, String.toList, List.append_nil] at htw ⊢
        rw [htw.1, htw.2]
        have : (((c :: rest).takeWhile isDigitC).reverse).isEmpty = false := by
          simp only [List.isEmpty_iff] at hd ⊢
          simpa using hd
        simp [this]

lemma firstNumSearch_shape (l : List Char) (s : String)
    (h : firstNumSearch l = some s) : numTokenShape s = true := by
  induction l with
  | nil => exact absurd h (by simp [firstNumSearch])
  | cons c cs ih =>
    by_cases hd : isDigitC c = true
    · simp only [firstNumSearch, hd, if_true] at h
      injection h with h; subst h
      have hall : ∀ x ∈ (c :: cs).takeWhile isDigitC, isDigitC x = true :=
        fun x hx => List.mem_takeWhile_imp hx
      cases hr : (c :: cs).dropWhile isDigitC with
      | nil =>
        have htw := takeWhile_all_append isDigitC ((c :: cs).takeWhile isDigitC) [] hall
          (by intro y hy; exact absurd hy (by simp))
        simp only [numTokenShape, String.toList, hr, List.append_nil] at htw ⊢
        rw [htw.1, htw.2]
        simp [List.takeWhile, hd]
      | cons x xs =>
        by_cases hx : isLowerC x = true
        · have htw := takeWhile_all_append isDigitC ((c :: cs).takeWhile isDigitC) [x] hall
            (by
              intro y hy
              simp only [List.head?] at hy
              injection hy with hy; subst hy
              exact isLowerC_not_digit x hx)
          simp only [numTokenShape, String.toList, hr, hx, if_true] at htw ⊢
          rw [htw.1, htw.2]
          simp [List.takeWhile, hd, isLowerC_isAlphaC x hx]
        · have hx2 : isLowerC x = false := by rwa [Bool.not_eq_true] at hx
          have htw := takeWhile_all_append isDigitC ((c :: cs).takeWhile isDigitC) [] hall
            (by intro y hy; exact absurd hy (by simp))
          simp only [numTokenShape, String.toList, hr, hx2, Bool.false_eq_true, if_false,
            List.append_nil] at htw ⊢
          rw [htw.1, htw.2]
          simp [List.takeWhile, hd]
    · simp only [firstNumSearch, hd, if_false] at h
      exact ih h

/-- Claim C9 as amended: get_new_house_number returns null, or a digit
run optionally followed by one letter, or the last space-separated token of
the title (full-address case), which may contain non-digit characters. -/
theorem getNew_shape (title : String) :
    getNewHouseNumber title = none ∨
      ∃ s, getNewHouseNumber title = some s ∧
        (numTokenShape s = true ∨ (reSplit sepAtSpace title.toList).getLast? = some s) := by
  unfold getNewHouseNumber
  by_cases hc : title.toList.contains ':' = true
  · rw [if_pos hc]; exact Or.inl rfl
  · rw [if_neg hc]
    by_cases hm : matchAddress title.toList = true
    · rw [if_pos hm]
      cases hsp : reSplit sepAtSpace title.toList with
      | nil => simp [hsp]
      | cons p ps =>
        cases ps with
        | nil =>
          simp only [hsp]
          cases hn : numSuffixSearch p.toList with
          | none => exact Or.inl rfl
          | some s => exact Or.inr ⟨s, rfl, Or.inl (numSuffixSearch_shape _ _ hn)⟩
        | cons q qs =>
          simp only [hsp]
          have hg : ((p :: q :: qs).getLast?).isSome = true := rfl
          obtain ⟨v, hv⟩ := Option.isSome_iff_exists.mp hg
          exact Or.inr ⟨v, hv, Or.inr hv⟩
    · rw [if_neg hm]
      cases hn : firstNumSearch title.toList with
      | none => exact Or.inl rfl
      | some s => exact Or.inr ⟨s, rfl, Or.inl (firstNumSearch_shape _ _ hn)⟩

lemma toList_mk (l : List Char) : (String.mk l).toList = l := rfl

lemma isDigitC_ne_comma (c : Char) (h : isDigitC c = true) : (c == ',') = false := by
  by_contra hb
  rw [Bool.not_eq_false, beq_iff_eq] at hb
  subst hb; exact absurd h (by decide)

lemma isDigitC_not_ws (c : Char) (h : isDigitC c = true) : isWsC c = false := by
  by_contra hb
  rw [Bool.not_eq_false] at hb
  simp only [isWsC, Bool.or_eq_true, beq_iff_eq] at hb
  rcases hb with ((((h1 | h1) | h1) | h1) | h1) | h1 <;> subst h1 <;> exact absurd h (by decide)

lemma isAlphaC_ne_comma (c : Char) (h : isAlphaC c = true) : (c == ',') = false := by
  by_contra hb
  rw [Bool.not_eq_false, beq_iff_eq] at hb
  subst hb; exact absurd h (by decide)

lemma isAlphaC_not_ws (c : Char) (h : isAlphaC c = true) : isWsC c = false := by
  by_contra hb
  rw [Bool.not_eq_false] at hb
  simp only [isWsC, Bool.or_eq_true, beq_iff_eq] at hb
  rcases hb with ((((h1 | h1) | h1) | h1) | h1) | h1 <;> subst h1 <;> exact absurd h (by decide)

lemma isAlphaC_ne_slash (c : Char) (h : isAlphaC c = true) : (c == '/') = false := by
  by_contra hb
  rw [Bool.not_eq_false, beq_iff_eq] at hb
  subst hb; exact absurd h (by decide)

lemma isAlphaC_ne_plus (c : Char) (h : isAlphaC c = true) : (c == '+') = false := by
  by_contra hb
  rw [Bool.not_eq_false, beq_iff_eq] at hb
  subst hb; exact absurd h (by decide)

lemma sepAt1_digit (c : Char) (l : List Char) (h : isDigitC c = true) :
    sepAt1 (c :: l) = none := by
  simp only [sepAt1, clsAt, chEq, isDigitC_ne_comma c h, isDigitC_not_ws c h,
    Bool.false_and, Bool.false_eq_true, if_false]

lemma sepAt1_alpha (c : Char) (l : List Char) (h : isAlphaC c = true) :
    sepAt1 (c :: l) = none := by
  simp only [sepAt1, clsAt, chEq, isAlphaC_ne_comma c h, isAlphaC_not_ws c h,
    Bool.false_and, Bool.false_eq_true, if_false]

lemma sepAt1_ws_alpha (a : Char) (r : List Char) (ha : isAlphaC a = true)
    (hr : ∀ c, r.head? = some c → (c == '.') = false) :
    sepAt1 (' ' :: a :: r) = none := by
  have h1 : ((' ' : Char) == ',') = false := by decide
  have h2 : isWsC ' ' = true := by decide
  have hcls : clsAt [chEq '.', isWsC] r = false := by
    cases r with
    | nil => rfl
    | cons c3 r3 =>
      have := hr c3 rfl
      simp only [clsAt, chEq, this, Bool.false_and]
  simp only [sepAt1, clsAt, chEq, h1, h2, isAlphaC_ne_slash a ha, isAlphaC_ne_plus a ha,
    Bool.false_and, Bool.and_false, Bool.true_and, hcls, Bool.false_eq_true, if_false]

lemma noSep1_append_of (a b r : List Char) (h1 : noSep1 a (b ++ r)) (h2 : noSep1 b r) :
    noSep1 (a ++ b) r := by
  induction a with
  | nil => exact h2
  | cons c a' ih =>
    obtain ⟨hc, ha⟩ := h1
    refine ⟨?_, ih ha⟩
    show sepAt1 (c :: ((a' ++ b) ++ r)) = none
    rw [List.append_assoc]
    exact hc

lemma noSep1_digits (d r : List Char) (hd : ∀ c ∈ d, isDigitC c = true) : noSep1 d r := by
  induction d with
  | nil => trivial
  | cons c d' ih =>
    exact ⟨sepAt1_digit c (d' ++ r) (hd c (by simp)), ih (fun a ha => hd a (by simp [ha]))⟩

lemma reSplitGo_walk (t : List Char) : ∀ (r acc : List Char) (fuel : Nat), noSep1 t r →
    reSplitGo sepAt1 (t.length + fuel) acc (t ++ r) =
      reSplitGo sepAt1 fuel (t.reverse ++ acc) r := by
  induction t with
  | nil => intro r acc fuel _; simp
  | cons c t' ih =>
    intro r acc fuel h
    obtain ⟨h1, h2⟩ := h
    have hlen : (c :: t').length + fuel = (t'.length + fuel) + 1 := by
      simp [List.length_cons]; omega
    rw [hlen, List.cons_append]
    simp only [reSplitGo, h1]
    rw [ih r (c :: acc) fuel h2]
    simp [List.reverse_cons, List.append_assoc]

lemma noSep1_token (t r : List Char) (ht : numTokenOK t = true)
    (hr : ∀ c, r.head? = some c → (c == '.') = false) : noSep1 t r := by
  have hsplit : t.takeWhile isDigitC ++ t.dropWhile isDigitC = t :=
    List.takeWhile_append_dropWhile isDigitC t
  have hdig : ∀ c ∈ t.takeWhile isDigitC, isDigitC c = true :=
    fun c hc => List.mem_takeWhile_imp hc
  simp only [numTokenOK, Bool.and_eq_true] at ht
  rw [← hsplit]
  refine noSep1_append_of _ _ _
    (noSep1_digits _ _ fun c hc => hdig c hc) ?_
  cases hrest : t.dropWhile isDigitC with
  | nil => trivial
  | cons a tl =>
    cases tl with
    | nil =>
      rw [hrest] at ht
      exact ⟨sepAt1_alpha a r ht.2, trivial⟩
    | cons b tl2 =>
      cases tl2 with
      | nil =>
        rw [hrest] at ht
        obtain ⟨hw, hb⟩ := Bool.and_eq_true_iff.mp ht.2
        have ha : a = ' ' := by rwa [beq_iff_eq] at hw
        subst ha
        exact ⟨sepAt1_ws_alpha b r hb hr, sepAt1_alpha b r hb, trivial⟩
      | cons x tl3 =>
        rw [hrest] at ht
        exact absurd ht.2 (by simp)

lemma sepAt1_sep (sk : SepTok) (r : List Char) :
    sepAt1 (sepTokChars sk ++ r) = some (sepTokChars sk).length := by
  cases sk <;> simp [sepAt1, sepTokChars, clsAt, chEq, isWsC]

lemma drop_sep (sk : SepTok) (r : List Char) :
    (sepTokChars sk ++ r).drop (sepTokChars sk).length = r := by
  cases sk <;> simp [sepTokChars]

lemma tailJoin_head_ne_dot (rest : List (SepTok × List Char)) :
    ∀ c, (tailJoin rest).head? = some c → (c == '.') = false := by
  intro c hc
  cases rest with
  | nil => exact absurd hc (by simp [tailJoin])
  | cons p more =>
    obtain ⟨sk, t⟩ := p
    cases sk <;>
      simp only [tailJoin, sepTokChars, List.cons_append, List.head?] at hc <;>
      injection hc with hc <;> subst hc <;> decide

lemma splitGo_tailJoin (rest : List (SepTok × List Char)) :
    ∀ (acc : List Char) (g : Nat), (∀ p ∈ rest, numTokenOK p.2 = true) →
    reSplitGo sepAt1 (fuelFor rest + g) acc (tailJoin rest) =
      String.mk acc.reverse :: rest.map (fun p => String.mk p.2) := by
  induction rest with
  | nil =>
    intro acc g _
    cases g with
    | zero => simp [fuelFor, tailJoin, reSplitGo]
    | succ g' => simp [fuelFor, tailJoin, reSplitGo, sepAt1, clsAt]
  | cons p more ih =>
    intro acc g hrest
    obtain ⟨sk, t⟩ := p
    have hfuel : fuelFor ((sk, t) :: more) + g = (t.length + (fuelFor more + g)) + 1 := by
      simp [fuelFor]; omega
    rw [hfuel]
    have hshape : tailJoin ((sk, t) :: more) = sepTokChars sk ++ (t ++ tailJoin more) := by
      simp [tailJoin, List.append_assoc]
    rw [hshape]
    simp only [reSplitGo, sepAt1_sep sk (t ++ tailJoin more), drop_sep sk (t ++ tailJoin more)]
    have hwalk := reSplitGo_walk t (tailJoin more) [] (fuelFor more + g)
      (noSep1_token t (tailJoin more) (hrest (sk, t) (by simp)) (tailJoin_head_ne_dot more))
    rw [hwalk, ih (t.reverse ++ []) g (fun q hq => hrest q (by simp [hq]))]
    simp

lemma sepTokChars_len (sk : SepTok) : 2 ≤ (sepTokChars sk).length := by
  cases sk <;> decide

lemma fuelFor_le (rest : List (SepTok × List Char)) : fuelFor rest ≤ (tailJoin rest).length := by
  induction rest with
  | nil => simp [fuelFor, tailJoin]
  | cons p more ih =>
    obtain ⟨sk, t⟩ := p
    have := sepTokChars_len sk
    simp only [fuelFor, tailJoin, List.length_append]
    omega

lemma reSplit_join (t0 : List Char) (rest : List (SepTok × List Char))
    (h0 : numTokenOK t0 = true) (hrest : ∀ p ∈ rest, numTokenOK p.2 = true) :
    reSplit sepAt1 (joinTokens t0 rest) = tokenStrings t0 rest := by
  obtain ⟨g, hg⟩ : ∃ g, (tailJoin rest).length + 1 = fuelFor rest + g :=
    ⟨(tailJoin rest).length + 1 - fuelFor rest, by have := fuelFor_le rest; omega⟩
  have hlen : (joinTokens t0 rest).length + 1 = t0.length + (fuelFor rest + g) := by
    simp only [joinTokens, List.length_append]
    omega
  unfold reSplit
  rw [hlen]
  unfold joinTokens
  rw [reSplitGo_walk t0 (tailJoin rest) [] (fuelFor rest + g)
    (noSep1_token t0 (tailJoin rest) h0 (tailJoin_head_ne_dot rest))]
  rw [splitGo_tailJoin rest (t0.reverse ++ []) g hrest]
  simp [tokenStrings]

lemma mem_digitsRests (d r : List Char) (hne : d ≠ [])
    (hd : ∀ c ∈ d, isDigitC c = true) : r ∈ digitsRests (d ++ r) := by
  induction d with
  | nil => exact absurd rfl hne
  | cons c d' ih =>
    have hc := hd c (by simp)
    simp only [List.cons_append, digitsRests, hc, if_true]
    cases d' with
    | nil => simp
    | cons e d2 =>
      exact List.mem_append_left _ (ih (by simp) (fun a ha => hd a (by simp [ha])))

lemma mem_optRests_self (p : Char → Bool) (l : List Char) : l ∈ optRests p l := by
  cases l with
  | nil => simp [optRests]
  | cons c cs =>
    by_cases h : p c = true <;> simp [optRests, h]

lemma mem_optRests_consume (p : Char → Bool) (c : Char) (l : List Char) (h : p c = true) :
    l ∈ optRests p (c :: l) := by
  simp [optRests, h]

lemma mem_tokenRests (t r : List Char) (ht : numTokenOK t = true) : r ∈ tokenRests (t ++ r) := by
  have hsplit : t.takeWhile isDigitC ++ t.dropWhile isDigitC = t :=
    List.takeWhile_append_dropWhile isDigitC t
  have hdig : ∀ c ∈ t.takeWhile isDigitC, isDigitC c = true :=
    fun c hc => List.mem_takeWhile_imp hc
  simp only [numTokenOK, Bool.and_eq_true] at ht
  have hne : t.takeWhile isDigitC ≠ [] := by
    intro hcon
    rw [hcon] at ht
    exact absurd ht.1 (by simp)
  rw [← hsplit, List.append_assoc]
  cases hrest : t.dropWhile isDigitC with
  | nil =>
    have h1 := mem_digitsRests (t.takeWhile isDigitC) r hne hdig
    simp only [List.nil_append]
    exact List.mem_flatMap.mpr ⟨r, List.mem_flatMap.mpr ⟨r, h1, mem_optRests_self _ _⟩,
      mem_optRests_self _ _⟩
  | cons a tl =>
    cases tl with
    | nil =>
      rw [hrest] at ht
      have ha : isAlphaC a = true := ht.2
      have h1 := mem_digitsRests (t.takeWhile isDigitC) (a :: r) hne hdig
      exact List.mem_flatMap.mpr ⟨a :: r,
        List.mem_flatMap.mpr ⟨a :: r, h1, mem_optRests_self _ _⟩,
        mem_optRests_consume isAlphaC a r ha⟩
    | cons b tl2 =>
      cases tl2 with
      | nil =>
        rw [hrest] at ht
        obtain ⟨hw, hb⟩ := Bool.and_eq_true_iff.mp ht.2
        have ha : a = ' ' := by rwa [beq_iff_eq] at hw
        subst ha
        have h1 := mem_digitsRests (t.takeWhile isDigitC) (' ' :: b :: r) hne hdig
        exact List.mem_flatMap.mpr ⟨b :: r,
          List.mem_flatMap.mpr ⟨' ' :: b :: r, h1,
            mem_optRests_consume isWsC ' ' (b :: r) (by decide)⟩,
          mem_optRests_consume isAlphaC b r hb⟩
      | cons x tl3 =>
        rw [hrest] at ht
        exact absurd ht.2 (by simp)

lemma mem_sepRests1 (sk : SepTok) (r : List Char) : r ∈ sepRests1 (sepTokChars sk ++ r) := by
  cases sk <;> simp [sepRests1, sepTokChars, clsAt, chEq, isWsC]

lemma tailJoin_len (rest : List (SepTok × List Char)) : rest.length ≤ (tailJoin rest).length := by
  induction rest with
  | nil => simp [tailJoin]
  | cons p more ih =>
    obtain ⟨sk, t⟩ := p
    have := sepTokChars_len sk
    simp only [tailJoin, List.length_append, List.length_cons]
    omega

lemma r1Go_join (rest : List (SepTok × List Char)) :
    ∀ (t0 : List Char) (fuel : Nat), numTokenOK t0 = true →
    (∀ p ∈ rest, numTokenOK p.2 = true) → rest.length < fuel →
    r1Go fuel (joinTokens t0 rest) = true := by
  induction rest with
  | nil =>
    intro t0 fuel h0 _ hfuel
    obtain ⟨f, rfl⟩ : ∃ f, fuel = f + 1 := ⟨fuel - 1, by omega⟩
    simp only [r1Go, List.any_eq_true]
    refine ⟨[], ?_, ?_⟩
    · have := mem_tokenRests t0 [] h0
      simpa [joinTokens, tailJoin] using this
    · exact ⟨[], by simp, by simp⟩
  | cons p more ih =>
    intro t0 fuel h0 hrest hfuel
    obtain ⟨sk, t⟩ := p
    obtain ⟨f, rfl⟩ : ∃ f, fuel = f + 1 := ⟨fuel - 1, by omega⟩
    simp only [r1Go, List.any_eq_true]
    refine ⟨sepTokChars sk ++ (t ++ tailJoin more), ?_, ?_⟩
    · have hshape : joinTokens t0 ((sk, t) :: more) =
          t0 ++ (sepTokChars sk ++ (t ++ tailJoin more)) := by
        simp [joinTokens, tailJoin, List.append_assoc]
      rw [hshape]
      exact mem_tokenRests t0 _ h0
    · refine ⟨t ++ tailJoin more, ?_, ?_⟩
      · exact List.mem_cons_of_mem _ (mem_sepRests1 sk (t ++ tailJoin more))
      · have : r1Go f (t ++ tailJoin more) = true := by
          have := ih t f (hrest (sk, t) (by simp)) (fun q hq => hrest q (by simp [hq]))
            (by simp at hfuel; omega)
          simpa [joinTokens] using this
        simp [this]

lemma matchRule1_join (t0 : List Char) (rest : List (SepTok × List Char))
    (h0 : numTokenOK t0 = true) (hrest : ∀ p ∈ rest, numTokenOK p.2 = true) :
    matchRule1 (joinTokens t0 rest) = true := by
  unfold matchRule1
  apply r1Go_join rest t0 _ h0 hrest
  have h1 := tailJoin_len rest
  simp only [joinTokens, List.length_append]
  omega

/-- Claim C6: for every input consisting of number tokens joined by the
separators comma-space, space-slash-space, space-plus-space or the
abbreviated German conjunction, when the passed-in new house number is not
among the tokens, split_old_house_number returns exactly the split tokens
in order with supplement and neighbouringNumber null and isPartOf false. -/
theorem split_plain_number_list (t0 : List Char) (rest : List (SepTok × List Char))
    (newHousenumber : Option String)
    (h0 : numTokenOK t0 = true) (hrest : ∀ p ∈ rest, numTokenOK p.2 = true)
    (hnew : elemOpt newHousenumber (tokenStrings t0 rest) = false) :
    splitOldHouseNumber (some (String.mk (joinTokens t0 rest))) newHousenumber =
      .ok ⟨some (tokenStrings t0 rest), none, none, some false,
        some (bannCheck (String.mk (joinTokens t0 rest)))⟩ := by
  have hm := matchRule1_join t0 rest h0 hrest
  have hsp := reSplit_join t0 rest h0 hrest
  simp only [splitOldHouseNumber, classifyOld, toList_mk, hm, if_true, hsp, hnew,
    Bool.false_eq_true, if_false]

/-- Witness for claim C6 on the join of the tokens 1052, 1053 and 48 A. -/
theorem split_plain_number_list_app :
    splitOldHouseNumber
        (some (String.mk (joinTokens ['1', '0', '5', '2']
          [(SepTok.comma, ['1', '0', '5', '3']), (SepTok.und, ['4', '8', ' ', 'A'])])))
        (some "9") =
      .ok ⟨some (tokenStrings ['1', '0', '5', '2']
          [(SepTok.comma, ['1', '0', '5', '3']), (SepTok.und, ['4', '8', ' ', 'A'])]),
        none, none, some false,
        some (bannCheck (String.mk (joinTokens ['1', '0', '5', '2']
          [(SepTok.comma, ['1', '0', '5', '3']), (SepTok.und, ['4', '8', ' ', 'A'])])))⟩ :=
  split_plain_number_list ['1', '0', '5', '2']
    [(SepTok.comma, ['1', '0', '5', '3']), (SepTok.und, ['4', '8', ' ', 'A'])]
    (some "9") (by decide) (by decide) (by decide)
